import Mathlib

/-!
Verification development for the disasm-util repository.

The repository parses the textual output of an objdump-style disassembler
into a tree (Disasm, Section, Symbol, Instruction), sorts the tree by
names, and renders it back to text.  The definitions below are a shallow
embedding of src/src/disasm.rs and its submodules: strings are Lean
Strings, lines are processed by pure functions, fallible operations
return Except String.  The three classification patterns RE_SECTION,
RE_SYMBOL and RE_INSTRUCTION of disasm.rs are embedded as deterministic
functions computing exactly the capture groups of the anchored patterns
under the leftmost-first (greedy/lazy) semantics of the regex engine.
-/

namespace DisasmUtil

/-! ## Character classes used by the patterns in disasm.rs -/

/-- The regex class [[:space:]] (ASCII whitespace). -/
def isWsAscii (c : Char) : Bool :=
  c = ' ' || c = '\t' || c = '\n' || c = '\x0b' || c = '\x0c' || c = '\r'

/-- Rust char::is_whitespace (Unicode White_Space), used by str::trim. -/
def rustIsWs (c : Char) : Bool :=
  c = '\t' || c = '\n' || c = '\x0b' || c = '\x0c' || c = '\r' || c = ' '
  || c = '\x85' || c = '\xa0' || c.val = 0x1680
  || (0x2000 ≤ c.val && c.val ≤ 0x200a)
  || c.val = 0x2028 || c.val = 0x2029 || c.val = 0x202f || c.val = 0x205f
  || c.val = 0x3000

/-- The regex class [[:alnum:].] of RE_SECTION. -/
def isAlnumDot (c : Char) : Bool :=
  c.isUpper || c.isLower || c.isDigit || c = '.'

/-- The opcode class [[[:lower:]][[:digit:]][[:space:]]] of RE_INSTRUCTION. -/
def isL (c : Char) : Bool :=
  c.isLower || c.isDigit || isWsAscii c

/-! ## String helpers mirroring the Rust std functions used by the code -/

/-- str::trim on a character list (drops Unicode whitespace on both ends). -/
def trimList (cs : List Char) : List Char :=
  ((cs.dropWhile rustIsWs).reverse.dropWhile rustIsWs).reverse

/-- str::trim. -/
def rustTrim (s : String) : String := ⟨trimList s.data⟩

/-- str::split_once(sep): split at the first occurrence of sep. -/
def splitOnceList (sep : Char) : List Char → Option (List Char × List Char)
  | [] => none
  | c :: cs =>
    if c = sep then some ([], cs)
    else (splitOnceList sep cs).map (fun p => (c :: p.1, p.2))

/-- str::rsplit_once(sep): split at the last occurrence of sep. -/
def rsplitOnceList (sep : Char) (cs : List Char) : Option (List Char × List Char) :=
  (splitOnceList sep cs.reverse).map (fun p => (p.2.reverse, p.1.reverse))

/-- str::strip_prefix on character lists. -/
def stripPreList : List Char → List Char → Option (List Char)
  | [], cs => some cs
  | _ :: _, [] => none
  | p :: ps, c :: cs => if c = p then stripPreList ps cs else none

/-! ## The data model (structs of disasm.rs and its submodules) -/

/-- The Instruction struct: opcode, operands, comment. -/
structure Instruction where
  opcode : String
  operands : String
  comment : String
deriving DecidableEq, Repr

def Instruction.new (opcode operands comment : String) : Instruction :=
  ⟨opcode, operands, comment⟩

/-- The string-splitting parser: impl From<&str> for Instruction
(src/src/disasm/instruction.rs).  Split at the first '#' into a left
part and a comment; trim the left part and split at the last space into
opcode and operands. -/
def Instruction.fromStr (s : String) : Instruction :=
  let (leftover, comment) := (splitOnceList '#' s.data).getD (s.data, [])
  match rsplitOnceList ' ' (trimList leftover) with
  | some (o, ops) => ⟨⟨trimList o⟩, ⟨ops⟩, ⟨trimList comment⟩⟩
  | none => ⟨⟨trimList leftover⟩, "", ⟨trimList comment⟩⟩

/-- The Symbol struct: a named ordered list of instructions. -/
structure Symbol where
  name : String
  instructions : List Instruction
deriving DecidableEq, Repr

def Symbol.new (name : String) : Symbol := ⟨name, []⟩

def Symbol.add_instruction (s : Symbol) (i : Instruction) : Symbol :=
  { s with instructions := s.instructions ++ [i] }

/-- The Section struct: a named ordered list of symbols. -/
structure Section where
  name : String
  symbols : List Symbol
deriving DecidableEq, Repr

def Section.new (name : String) : Section := ⟨name, []⟩

def Section.add_symbol (sec : Section) (sym : Symbol) : Section :=
  { sec with symbols := sec.symbols ++ [sym] }

/-- Section::add_instruction: append to the last symbol, or fail. -/
def Section.add_instruction (sec : Section) (i : Instruction) : Except String Section :=
  match sec.symbols.getLast? with
  | none => .error "Attempted to add an instruction without first defining a symbol"
  | some last =>
    .ok { sec with symbols := sec.symbols.dropLast ++ [last.add_instruction i] }

/-- The Disasm struct: file metadata plus the section list. -/
structure Disasm where
  file_name : String
  file_format : String
  sections : List Section
deriving DecidableEq, Repr

def Disasm.add_section (d : Disasm) (sec : Section) : Disasm :=
  { d with sections := d.sections ++ [sec] }

/-- Disasm::add_symbol: attach to the last section, or fail. -/
def Disasm.add_symbol (d : Disasm) (sym : Symbol) : Except String Disasm :=
  match d.sections.getLast? with
  | none => .error "Attempted to add a symbol without first defining a section"
  | some sec =>
    .ok { d with sections := d.sections.dropLast ++ [sec.add_symbol sym] }

/-- Disasm::add_instruction: attach to the last section, or fail. -/
def Disasm.add_instruction (d : Disasm) (i : Instruction) : Except String Disasm :=
  match d.sections.getLast? with
  | none => .error "Attempted to add an instruction without first defining a section"
  | some sec =>
    match sec.add_instruction i with
    | .error e => .error e
    | .ok sec' => .ok { d with sections := d.sections.dropLast ++ [sec'] }

/-! ## The three line patterns of process_other_line -/

/-- The literal part of RE_SECTION before the name group. -/
def sectionMarkerPre : List Char := "Disassembly of section ".data

/-- RE_SECTION = ^Disassembly of section (?P<sec_name>.[[:alnum:].]+):$ .
The captured name is everything between the literal text and the final
colon; it must have length at least two, its first character is
arbitrary (the dot of the pattern, excluding newline) and the remaining
characters are alphanumerics or periods. -/
def reSectionCapture (line : String) : Option String :=
  match stripPreList sectionMarkerPre line.data with
  | none => none
  | some rest =>
    match rest.dropLast with
    | [] => none
    | c :: ms =>
      if rest.getLast? = some ':' ∧ ms ≠ [] ∧ ms.all isAlnumDot = true ∧ c ≠ '\n'
      then some ⟨c :: ms⟩
      else none

/-- RE_SYMBOL = ^(?P<sym_name><.+>):$ .  The line must start with an
angle bracket and end in the two characters greater-than colon, with at
least one (non-newline) character between the brackets; the capture is
the whole line minus the final colon. -/
def reSymbolCapture (line : String) : Option String :=
  match line.data with
  | [] => none
  | c :: rest =>
    if c = '<' ∧ rest.getLast? = some ':' ∧ rest.dropLast.getLast? = some '>'
       ∧ rest.dropLast.dropLast ≠ [] ∧ rest.dropLast.dropLast.all (fun x => x != '\n') = true
    then some ⟨'<' :: rest.dropLast⟩
    else none

/-- The trailing match of the comment group of RE_INSTRUCTION: the group
is .* followed by [[:space:]]*$ , so it matches when everything after
the first newline (if any) is ASCII whitespace, and captures the text up
to that newline (greedy). -/
def commentMatch (t : List Char) : Option (List Char) :=
  let x := t.takeWhile (fun c => c ≠ '\n')
  if (t.drop x.length).all isWsAscii then some x else none

/-- The operands-empty alternative of RE_INSTRUCTION at opcode length k:
the rest up to the maximal-prefix boundary P must be whitespace, the
character at P must be '#', and the comment group must close the line. -/
def tryAtB1 (s : List Char) (P k : Nat) : Option (List Char × List Char × List Char) :=
  if ((s.drop k).take (P - k)).all isWsAscii = true ∧ P - k ≠ 0 ∧ s.get? P = some '#'
  then (commentMatch (s.drop (P + 1))).map (fun cm => (s.take k, ([] : List Char), cm))
  else none

/-- The operands alternative of RE_INSTRUCTION at opcode length k: a
whitespace run, one non-whitespace token, then either trailing
whitespace or a whitespace run, '#' and the comment group. -/
def tryAtB2 (s : List Char) (P k : Nat) : Option (List Char × List Char × List Char) :=
  let r := s.drop k
  let a := r.takeWhile isWsAscii
  if a.isEmpty then none
  else
    let rest2 := r.drop a.length
    let w := rest2.takeWhile (fun c => !(isWsAscii c))
    if w.isEmpty then none
    else
      let rest3 := rest2.drop w.length
      if rest3.all isWsAscii then some (s.take k, a ++ w, [])
      else
        let b := rest3.takeWhile isWsAscii
        if b.isEmpty then none
        else
          match rest3.get? b.length with
          | some '#' =>
            (commentMatch (rest3.drop (b.length + 1))).map
              (fun cm => (s.take k, a ++ w, cm))
          | _ => none

/-- One backtracking attempt of RE_INSTRUCTION with the opcode group
covering the first k characters after the leading whitespace character.
P is the length of the maximal opcode-class prefix.  The lazy operands
group means the operands-empty alternative is tried first. -/
def tryAt (s : List Char) (P k : Nat) : Option (List Char × List Char × List Char) :=
  match tryAtB1 s P k with
  | some res => some res
  | none => tryAtB2 s P k

/-- Greedy search over the opcode group length, longest first. -/
def searchK (s : List Char) (P : Nat) : Nat → Option (List Char × List Char × List Char)
  | 0 => tryAt s P 0
  | k + 1 =>
    match tryAt s P (k + 1) with
    | some r => some r
    | none => searchK s P k

/-- RE_INSTRUCTION: one leading ASCII whitespace character, a greedy
opcode group over lowercase/digit/whitespace, an optional (lazy)
operands group, an optional (lazy) '#'-comment group, trailing
whitespace.  Returns the raw capture groups (opcode, operands, comment);
a group that does not participate is returned as the empty string, as
map_or does in the Rust code. -/
def reInstructionCapture (line : String) : Option (String × String × String) :=
  match line.data with
  | [] => none
  | c :: s =>
    if isWsAscii c then
      let P := (s.takeWhile isL).length
      if P = s.length then some (⟨s⟩, "", "")
      else
        match P with
        | 0 => none
        | p + 1 =>
          (searchK s (p + 1) p).map (fun g => (⟨g.1⟩, ⟨g.2.1⟩, ⟨g.2.2⟩))
    else none

/-! ## The parsing engine (Disasm::from_lines and helpers) -/

/-- Disasm::process_first_line: split at the first colon, trim the
remainder, strip the literal "file format " and keep the rest. -/
def process_first_line (line : String) : Except String (String × String) :=
  match splitOnceList ':' line.data with
  | none => .error "Incorrect format for the first line"
  | some (fn, rest) =>
    match stripPreList "file format ".data (trimList rest) with
    | none => .error "Incorrect format for the first line"
    | some fmt => .ok (⟨fn⟩, ⟨fmt⟩)

/-- Disasm::process_other_line: try RE_SECTION, then RE_SYMBOL, then
RE_INSTRUCTION (trimming each capture), else report the line. -/
def Disasm.process_other_line (d : Disasm) (line : String) : Except String Disasm :=
  match reSectionCapture line with
  | some sec_name => .ok (d.add_section (Section.new sec_name))
  | none =>
    match reSymbolCapture line with
    | some sym_name => d.add_symbol (Symbol.new sym_name)
    | none =>
      match reInstructionCapture line with
      | some g =>
        d.add_instruction (Instruction.new (rustTrim g.1) (rustTrim g.2.1) (rustTrim g.2.2))
      | none =>
        .error ("Unrecognized format for the following line: '" ++ line ++ "'")

/-- The fold of process_other_line over the remaining lines (fail-fast). -/
def processLines (d : Disasm) : List String → Except String Disasm
  | [] => .ok d
  | l :: ls =>
    match d.process_other_line l with
    | .ok d' => processLines d' ls
    | .error e => .error e

/-! ## Sorting (sort_sections / sort_symbols) -/

/-- Lexicographic codepoint order on character lists, the order of
Rust's Ord for String (byte order on UTF-8 equals codepoint order). -/
def listLe : List Char → List Char → Bool
  | [], _ => true
  | _ :: _, [] => false
  | a :: as, b :: bs =>
    if a.val.toNat < b.val.toNat then true
    else if b.val.toNat < a.val.toNat then false
    else listLe as bs

def strLe (a b : String) : Bool := listLe a.data b.data

def symLe (a b : Symbol) : Bool := strLe a.name b.name

def secLe (a b : Section) : Bool := strLe a.name b.name

/-- Stable insertion into a sorted list: the new element goes before the
first element it is le-related to, hence after existing equal keys. -/
def ordInsert {α : Type} (le : α → α → Bool) (a : α) : List α → List α
  | [] => [a]
  | b :: l => if le a b then a :: b :: l else b :: ordInsert le a l

/-- Stable insertion sort, the behaviour of Rust's stable sort_by. -/
def insSort {α : Type} (le : α → α → Bool) : List α → List α
  | [] => []
  | a :: l => ordInsert le a (insSort le l)

/-- Section::sort_symbols. -/
def Section.sort_symbols (s : Section) : Section :=
  { s with symbols := insSort symLe s.symbols }

/-- Disasm::sort_sections: sort each section's symbols, then sort the
sections, both by name. -/
def Disasm.sort_sections (d : Disasm) : Disasm :=
  { d with sections := insSort secLe (d.sections.map Section.sort_symbols) }

/-- Disasm::from_lines before the final sort: filter blank lines, parse
the first line as the header, fold the rest through the classifier. -/
def from_lines_raw (lines : List String) : Except String Disasm :=
  match lines.filter (fun l => !(trimList l.data).isEmpty) with
  | [] => .error "Error, the file does not contain any text"
  | first :: rest =>
    match process_first_line first with
    | .error e => .error e
    | .ok (fn, fmt) => processLines ⟨fn, fmt, []⟩ rest

/-- Disasm::from_lines. -/
def from_lines (lines : List String) : Except String Disasm :=
  (from_lines_raw lines).map Disasm.sort_sections

/-! ## Rendering (the Display impls) -/

/-- Instruction Display: the opcode followed by a newline. -/
def Instruction.render (i : Instruction) : String := i.opcode ++ "\n"

/-- Symbol Display: name, colon, newline, then each instruction rendered
with a four-space prefix, concatenated. -/
def Symbol.render (s : Symbol) : String :=
  s.name ++ ":\n" ++ String.join (s.instructions.map (fun i => "    " ++ i.render))

/-- str::split('\n'): the pieces between newlines, including a leading,
trailing or empty piece where newlines are adjacent to the ends. -/
def splitNl : List Char → List (List Char)
  | [] => [[]]
  | c :: rest =>
    if c = '\n' then [] :: splitNl rest
    else
      match splitNl rest with
      | [] => [[c]]
      | p :: pr => (c :: p) :: pr

/-- The indentation fold of Section Display: four spaces before every
non-empty piece, and a newline after it. -/
def indentFold (pieces : List String) : String :=
  pieces.foldl
    (fun acc x =>
      acc ++ (if !x.isEmpty then "    " else "") ++ x
          ++ (if !x.isEmpty then "\n" else ""))
    ""

/-- Section Display: name, colon, newline, then the concatenation of the
symbol renderings re-indented line by line. -/
def Section.render (sec : Section) : String :=
  let symbols_str := (sec.symbols.map Symbol.render).foldl (· ++ ·) ""
  sec.name ++ ":\n" ++ indentFold ((splitNl symbols_str.data).map (fun p => (⟨p⟩ : String)))

/-- Disasm Display: the concatenation of the section renderings. -/
def Disasm.render (d : Disasm) : String :=
  String.join (d.sections.map Section.render)

/-- The exact set of names RE_SECTION accepts: a first character that is
not a newline, followed by a non-empty run of alphanumerics/periods. -/
def goodSecNameB (name : String) : Bool :=
  match name.data with
  | [] => false
  | c :: ms => (!ms.isEmpty) && ms.all isAlnumDot && (c != '\n')

/-! ## General helper lemmas -/

theorem string_eta (s : String) : (⟨s.data⟩ : String) = s := by
  cases s; rfl

theorem str_data_append (a b : String) : (a ++ b).data = a.data ++ b.data := by
  cases a; cases b; rfl

theorem string_ext {a b : String} (h : a.data = b.data) : a = b := by
  cases a; cases b; exact congrArg String.mk h

theorem listLe_refl : ∀ l : List Char, listLe l l = true := by
  intro l
  induction l with
  | nil => rfl
  | cons a as ih => simp [listLe, ih]

theorem listLe_total : ∀ a b : List Char, listLe a b = true ∨ listLe b a = true := by
  intro a
  induction a with
  | nil => intro b; left; rfl
  | cons x xs ih =>
    intro b
    cases b with
    | nil => right; rfl
    | cons y ys =>
      by_cases h1 : x.val.toNat < y.val.toNat
      · left; simp [listLe, h1]
      · by_cases h2 : y.val.toNat < x.val.toNat
        · right; simp [listLe, h2]
        · rcases ih ys with h | h
          · left; simp [listLe, h1, h2, h]
          · right; simp [listLe, h1, h2, h]

theorem listLe_trans :
    ∀ a b c : List Char, listLe a b = true → listLe b c = true → listLe a c = true := by
  intro a
  induction a with
  | nil => intro b c _ _; rfl
  | cons x xs ih =>
    intro b c hab hbc
    cases b with
    | nil => simp [listLe] at hab
    | cons y ys =>
      cases c with
      | nil => simp [listLe] at hbc
      | cons z zs =>
        simp only [listLe] at hab hbc ⊢
        split_ifs at hab hbc ⊢
        all_goals first
          | rfl
          | (exact Bool.noConfusion hab)
          | (exact Bool.noConfusion hbc)
          | (exact ih ys zs hab hbc)
          | (exfalso; omega)

theorem strLe_refl (s : String) : strLe s s = true := listLe_refl s.data

theorem strLe_total (a b : String) : strLe a b = true ∨ strLe b a = true :=
  listLe_total a.data b.data

theorem strLe_trans {a b c : String} (h1 : strLe a b = true) (h2 : strLe b c = true) :
    strLe a c = true :=
  listLe_trans a.data b.data c.data h1 h2

theorem mem_ordInsert {α : Type} (le : α → α → Bool) (a x : α) :
    ∀ l : List α, x ∈ ordInsert le a l ↔ x = a ∨ x ∈ l := by
  intro l
  induction l with
  | nil => simp [ordInsert]
  | cons b l ih =>
    by_cases h : le a b = true
    · simp [ordInsert, h]
    · simp only [ordInsert, if_neg h, List.mem_cons, ih]
      tauto

theorem mem_insSort {α : Type} (le : α → α → Bool) (x : α) :
    ∀ l : List α, x ∈ insSort le l ↔ x ∈ l := by
  intro l
  induction l with
  | nil => simp [insSort]
  | cons a l ih => simp [insSort, mem_ordInsert, ih]

theorem pairwise_ordInsert {α : Type} (le : α → α → Bool)
    (htot : ∀ x y, le x y = true ∨ le y x = true)
    (htrans : ∀ x y z, le x y = true → le y z = true → le x z = true)
    (a : α) : ∀ l : List α, l.Pairwise (fun x y => le x y = true) →
      (ordInsert le a l).Pairwise (fun x y => le x y = true) := by
  intro l
  induction l with
  | nil => intro _; simp [ordInsert]
  | cons b l ih =>
    intro hp
    rcases List.pairwise_cons.mp hp with ⟨hb, hl⟩
    by_cases h : le a b = true
    · simp only [ordInsert, if_pos h]
      refine List.pairwise_cons.mpr ⟨?_, hp⟩
      intro y hy
      rcases List.mem_cons.mp hy with rfl | hy'
      · exact h
      · exact htrans a b y h (hb y hy')
    · simp only [ordInsert, if_neg h]
      refine List.pairwise_cons.mpr ⟨?_, ih hl⟩
      intro y hy
      rcases (mem_ordInsert le a y l).mp hy with hy1 | hy'
      · cases hy1
        rcases htot a b with h' | h'
        · exact absurd h' h
        · exact h'
      · exact hb y hy'

theorem pairwise_insSort {α : Type} (le : α → α → Bool)
    (htot : ∀ x y, le x y = true ∨ le y x = true)
    (htrans : ∀ x y z, le x y = true → le y z = true → le x z = true) :
    ∀ l : List α, (insSort le l).Pairwise (fun x y => le x y = true) := by
  intro l
  induction l with
  | nil => simp [insSort]
  | cons a l ih => exact pairwise_ordInsert le htot htrans a _ ih

theorem insSort_eq_of_pairwise {α : Type} (le : α → α → Bool) :
    ∀ l : List α, l.Pairwise (fun x y => le x y = true) → insSort le l = l := by
  intro l
  induction l with
  | nil => intro _; rfl
  | cons a l ih =>
    intro hp
    rcases List.pairwise_cons.mp hp with ⟨ha, hl⟩
    rw [insSort, ih hl]
    cases l with
    | nil => rfl
    | cons b l' => simp [ordInsert, ha b (by simp)]

theorem filter_ordInsert {α : Type} (le : α → α → Bool) (p : α → Bool)
    (hp : ∀ x y, p x = true → p y = true → le x y = true) (a : α) :
    ∀ l : List α,
      (ordInsert le a l).filter p = if p a then a :: l.filter p else l.filter p := by
  intro l
  induction l with
  | nil => cases hpa : p a <;> simp [ordInsert, List.filter_cons, hpa]
  | cons b l ih =>
    by_cases h : le a b = true
    · cases hpa : p a <;> simp [ordInsert, if_pos h, List.filter_cons, hpa]
    · simp only [ordInsert, if_neg h, List.filter_cons]
      cases hpb : p b with
      | true =>
        have hpa : p a = false := by
          cases hval : p a with
          | true => exact absurd (hp a b hval hpb) h
          | false => rfl
        simp [List.filter_cons, ih, hpa, hpb]
      | false => simp [List.filter_cons, ih, hpb]

theorem filter_insSort {α : Type} (le : α → α → Bool) (p : α → Bool)
    (hp : ∀ x y, p x = true → p y = true → le x y = true) :
    ∀ l : List α, (insSort le l).filter p = l.filter p := by
  intro l
  induction l with
  | nil => rfl
  | cons a l ih =>
    rw [insSort, filter_ordInsert le p hp a _, ih]
    cases hpa : p a <;> simp [List.filter_cons, hpa]

theorem map_ordInsert {α β : Type} (le : α → α → Bool) (le' : β → β → Bool) (g : α → β)
    (hg : ∀ x y, le' (g x) (g y) = le x y) (a : α) :
    ∀ l : List α, (ordInsert le a l).map g = ordInsert le' (g a) (l.map g) := by
  intro l
  induction l with
  | nil => rfl
  | cons b l ih =>
    simp only [ordInsert, List.map_cons]
    by_cases h : le a b = true
    · rw [if_pos h, if_pos (by rw [hg]; exact h)]
      simp
    · rw [if_neg h, if_neg (by rw [hg]; exact h)]
      simp [ih]

theorem map_insSort {α β : Type} (le : α → α → Bool) (le' : β → β → Bool) (g : α → β)
    (hg : ∀ x y, le' (g x) (g y) = le x y) :
    ∀ l : List α, (insSort le l).map g = insSort le' (l.map g) := by
  intro l
  induction l with
  | nil => rfl
  | cons a l ih =>
    simp only [insSort, map_ordInsert le le' g hg, ih, List.map_cons]

/-! ## Lemmas about trimming, splitting and prefix stripping -/

theorem mem_trimList {x : Char} {l : List Char} (h : x ∈ trimList l) : x ∈ l := by
  unfold trimList at h
  have h1 := List.mem_reverse.mp h
  have h2 := (List.dropWhile_sublist rustIsWs).mem h1
  have h3 := List.mem_reverse.mp h2
  exact (List.dropWhile_sublist rustIsWs).mem h3

theorem all_trimList_of_all {p : Char → Bool} {l : List Char} (h : l.all p = true) :
    (trimList l).all p = true := by
  rw [List.all_eq_true] at h ⊢
  intro x hx
  exact h x (mem_trimList hx)

theorem trimList_all_ws_of_nil : ∀ {l : List Char}, trimList l = [] →
    ∀ x ∈ l, rustIsWs x = true := by
  intro l h x hx
  unfold trimList at h
  have h1 : (((l.dropWhile rustIsWs).reverse).dropWhile rustIsWs) = [] := by
    have := congrArg List.reverse h
    simpa using this
  have h2 : ∀ y ∈ (l.dropWhile rustIsWs).reverse, rustIsWs y = true := by
    intro y hy
    exact List.dropWhile_eq_nil_iff.mp h1 y hy
  have h3 : ∀ y ∈ l.dropWhile rustIsWs, rustIsWs y = true := by
    intro y hy
    exact h2 y (List.mem_reverse.mpr hy)
  have h4 : ∀ y ∈ l.takeWhile rustIsWs, rustIsWs y = true := by
    intro y hy
    exact List.mem_takeWhile_imp hy
  have h5 : l = l.takeWhile rustIsWs ++ l.dropWhile rustIsWs :=
    (List.takeWhile_append_dropWhile rustIsWs l).symm
  rw [h5] at hx
  rcases List.mem_append.mp hx with hx' | hx'
  · exact h4 x hx'
  · exact h3 x hx'

theorem trimList_ne_nil {l : List Char} {c : Char} (hc : c ∈ l) (hw : rustIsWs c = false) :
    trimList l ≠ [] := by
  intro h
  have := trimList_all_ws_of_nil h c hc
  rw [hw] at this
  exact Bool.noConfusion this

theorem stripPreList_append : ∀ (p cs : List Char), stripPreList p (p ++ cs) = some cs := by
  intro p
  induction p with
  | nil => intro cs; rfl
  | cons x ps ih => intro cs; simp [stripPreList, ih]

theorem stripPreList_head_ne {p₀ c : Char} (ps cs : List Char) (h : c ≠ p₀) :
    stripPreList (p₀ :: ps) (c :: cs) = none := by
  simp [stripPreList, h]

theorem splitOnceList_not_mem {sep : Char} :
    ∀ {cs : List Char}, sep ∉ cs → splitOnceList sep cs = none := by
  intro cs
  induction cs with
  | nil => intro _; rfl
  | cons c cs ih =>
    intro h
    have hc : ¬(c = sep) := fun e => h (by simp [e])
    have hm : sep ∉ cs := fun m => h (by simp [m])
    simp [splitOnceList, hc, ih hm]

theorem splitOnceList_append {sep : Char} :
    ∀ (fn rest : List Char), sep ∉ fn →
      splitOnceList sep (fn ++ sep :: rest) = some (fn, rest) := by
  intro fn
  induction fn with
  | nil => intro rest _; simp [splitOnceList]
  | cons c fn ih =>
    intro rest h
    have hc : ¬(c = sep) := fun e => h (by simp [e])
    have hm : sep ∉ fn := fun m => h (by simp [m])
    simp [splitOnceList, hc, ih rest hm]

/-! ## Lemmas about takeWhile and take -/

theorem all_take_of_le_takeWhile (p : Char → Bool) :
    ∀ (s : List Char) (k : Nat), k ≤ (s.takeWhile p).length → (s.take k).all p = true := by
  intro s
  induction s with
  | nil => intro k _; simp
  | cons c cs ih =>
    intro k hk
    cases k with
    | zero => simp
    | succ k' =>
      cases hc : p c with
      | true =>
        rw [List.takeWhile_cons, if_pos hc] at hk
        simp only [List.length_cons, Nat.succ_le_succ_iff] at hk
        simp only [List.take_succ_cons, List.all_cons, hc, Bool.true_and]
        exact ih k' hk
      | false =>
        rw [List.takeWhile_cons, if_neg (by simp [hc])] at hk
        simp at hk

theorem takeWhile_eq_self_of_all (p : Char → Bool) :
    ∀ s : List Char, s.all p = true → s.takeWhile p = s := by
  intro s
  induction s with
  | nil => intro _; rfl
  | cons c cs ih =>
    intro h
    simp only [List.all_cons, Bool.and_eq_true] at h
    rw [List.takeWhile_cons, if_pos h.1, ih h.2]

theorem all_of_takeWhile_length (p : Char → Bool) (s : List Char)
    (h : (s.takeWhile p).length = s.length) : s.all p = true := by
  have hpre : s.takeWhile p = s :=
    (List.takeWhile_prefix p).eq_of_length h
  rw [List.all_eq_true]
  intro x hx
  rw [← hpre] at hx
  exact List.mem_takeWhile_imp hx

/-! ## Opcode-group lemmas for RE_INSTRUCTION -/

theorem tryAtB1_opcode {s : List Char} {P k : Nat} {o a cm : List Char}
    (h : tryAtB1 s P k = some (o, a, cm)) : o = s.take k := by
  unfold tryAtB1 at h
  split at h
  · rcases Option.map_eq_some'.mp h with ⟨x, _, he⟩
    exact (Prod.mk.injEq _ _ _ _ ▸ he).1.symm
  · exact Option.noConfusion h

theorem tryAtB2_opcode {s : List Char} {P k : Nat} {o a cm : List Char}
    (h : tryAtB2 s P k = some (o, a, cm)) : o = s.take k := by
  unfold tryAtB2 at h
  simp only [] at h
  split at h
  · exact Option.noConfusion h
  · split at h
    · exact Option.noConfusion h
    · split at h
      · rw [Option.some.injEq, Prod.mk.injEq] at h
        exact h.1.symm
      · split at h
        · exact Option.noConfusion h
        · split at h
          · rcases Option.map_eq_some'.mp h with ⟨x, _, he⟩
            exact (Prod.mk.injEq _ _ _ _ ▸ he).1.symm
          · exact Option.noConfusion h

theorem tryAt_opcode {s : List Char} {P k : Nat} {o a cm : List Char}
    (h : tryAt s P k = some (o, a, cm)) : o = s.take k := by
  unfold tryAt at h
  cases hb : tryAtB1 s P k with
  | some r =>
    rw [hb] at h
    cases h
    exact tryAtB1_opcode hb
  | none =>
    rw [hb] at h
    exact tryAtB2_opcode h

theorem searchK_opcode {s : List Char} {P : Nat} :
    ∀ {k : Nat} {o a cm : List Char}, searchK s P k = some (o, a, cm) →
      ∃ j, j ≤ k ∧ o = s.take j := by
  intro k
  induction k with
  | zero =>
    intro o a cm h
    exact ⟨0, Nat.le_refl 0, tryAt_opcode h⟩
  | succ k ih =>
    intro o a cm h
    rw [searchK] at h
    cases htry : tryAt s P (k + 1) with
    | some r =>
      rw [htry] at h
      cases h
      exact ⟨k + 1, Nat.le_refl _, tryAt_opcode htry⟩
    | none =>
      rw [htry] at h
      rcases ih h with ⟨j, hj, ho⟩
      exact ⟨j, Nat.le_succ_of_le hj, ho⟩

/-! ## Lemmas about the three capture functions -/

theorem ws_ne_lt {c : Char} (h : isWsAscii c = true) : c ≠ '<' := by
  intro he
  subst he
  simp [isWsAscii] at h

theorem ws_ne_d {c : Char} (h : isWsAscii c = true) : c ≠ 'D' := by
  intro he
  subst he
  simp [isWsAscii] at h

theorem reSectionCapture_head_ne {line : String} {c : Char} {s : List Char}
    (hdata : line.data = c :: s) (hc : c ≠ 'D') : reSectionCapture line = none := by
  unfold reSectionCapture
  rw [hdata]
  rw [show sectionMarkerPre = 'D' :: "isassembly of section ".data from rfl]
  rw [stripPreList_head_ne _ _ hc]

theorem reSectionCapture_nil {line : String} (hdata : line.data = []) :
    reSectionCapture line = none := by
  unfold reSectionCapture
  rw [hdata]
  rfl

theorem reSectionCapture_pos {line : String} {c : Char} {ms : List Char}
    (hdata : line.data = sectionMarkerPre ++ ((c :: ms) ++ [':']))
    (hms : ms ≠ []) (hall : ms.all isAlnumDot = true) (hc : c ≠ '\n') :
    reSectionCapture line = some ⟨c :: ms⟩ := by
  unfold reSectionCapture
  rw [hdata, stripPreList_append]
  have hdl : ((c :: ms) ++ [':']).dropLast = c :: ms := List.dropLast_concat
  have hgl : ((c :: ms) ++ [':']).getLast? = some ':' := List.getLast?_concat _
  simp only [hdl, hgl]
  rw [if_pos ⟨trivial, hms, hall, hc⟩]

theorem reSectionCapture_neg {line : String} {md : List Char}
    (hdata : line.data = sectionMarkerPre ++ (md ++ [':']))
    (hbad : goodSecNameB ⟨md⟩ = false) :
    reSectionCapture line = none := by
  unfold reSectionCapture
  rw [hdata, stripPreList_append]
  cases md with
  | nil => simp
  | cons c ms =>
    have hbad' : ¬(ms ≠ [] ∧ ms.all isAlnumDot = true ∧ c ≠ '\n') := by
      rintro ⟨h1, h2, h3⟩
      unfold goodSecNameB at hbad
      simp only [List.isEmpty_iff] at hbad
      rw [h2] at hbad
      simp [h1, h3] at hbad
    simp only [List.dropLast_concat, List.getLast?_concat]
    rw [if_neg (by rintro ⟨-, hx1, hx2, hx3⟩; exact hbad' ⟨hx1, hx2, hx3⟩)]

theorem reSymbolCapture_head_ne {line : String} {c : Char} {s : List Char}
    (hdata : line.data = c :: s) (hc : c ≠ '<') : reSymbolCapture line = none := by
  unfold reSymbolCapture
  rw [hdata]
  simp [hc]

theorem reSymbolCapture_nil {line : String} (hdata : line.data = []) :
    reSymbolCapture line = none := by
  unfold reSymbolCapture
  rw [hdata]

theorem reSymbolCapture_pos {line : String} {mid : List Char}
    (hdata : line.data = '<' :: ((mid ++ ['>']) ++ [':']))
    (hmid : mid ≠ []) (hnl : mid.all (fun x => x != '\n') = true) :
    reSymbolCapture line = some ⟨'<' :: (mid ++ ['>'])⟩ := by
  unfold reSymbolCapture
  rw [hdata]
  have h1 : ((mid ++ ['>']) ++ [':']).getLast? = some ':' := List.getLast?_concat _
  have h2 : ((mid ++ ['>']) ++ [':']).dropLast = mid ++ ['>'] := List.dropLast_concat
  have h3 : (mid ++ ['>']).getLast? = some '>' := List.getLast?_concat _
  have h4 : (mid ++ ['>']).dropLast = mid := List.dropLast_concat
  simp only [h1, h2, h3, h4]
  rw [if_pos ⟨trivial, trivial, trivial, hmid, hnl⟩]

theorem reSymbolCapture_no_colon {line : String}
    (hhead : line.data.head? = some '<') (hlast : line.data.getLast? ≠ some ':') :
    reSymbolCapture line = none := by
  unfold reSymbolCapture
  cases hdata : line.data with
  | nil => rfl
  | cons c rest =>
    rw [hdata] at hhead hlast
    cases rest with
    | nil => simp
    | cons r rs =>
      rw [List.getLast?_cons_cons] at hlast
      simp [hlast]

theorem reInstructionCapture_head_not_ws {line : String} {c : Char} {s : List Char}
    (hdata : line.data = c :: s) (hc : isWsAscii c = false) :
    reInstructionCapture line = none := by
  unfold reInstructionCapture
  rw [hdata]
  simp [hc]

theorem reInstructionCapture_ws_head {line : String} {o a cm : String}
    (h : reInstructionCapture line = some (o, a, cm)) :
    ∃ c s, line.data = c :: s ∧ isWsAscii c = true := by
  unfold reInstructionCapture at h
  cases hdata : line.data with
  | nil => rw [hdata] at h; exact Option.noConfusion h
  | cons c s =>
    rw [hdata] at h
    cases hws : isWsAscii c with
    | true => exact ⟨c, s, rfl, hws⟩
    | false => simp [hws] at h

theorem reInstructionCapture_opcode_class {line : String} {o a cm : String}
    (h : reInstructionCapture line = some (o, a, cm)) :
    o.data.all isL = true := by
  unfold reInstructionCapture at h
  cases hdata : line.data with
  | nil => rw [hdata] at h; exact Option.noConfusion h
  | cons c s =>
    rw [hdata] at h
    cases hws : isWsAscii c with
    | false => simp [hws] at h
    | true =>
      simp only [hws, if_true] at h
      by_cases hlen : (s.takeWhile isL).length = s.length
      · rw [if_pos hlen] at h
        rw [Option.some.injEq, Prod.mk.injEq, Prod.mk.injEq] at h
        have ho : o = ⟨s⟩ := h.1.symm
        subst ho
        exact all_of_takeWhile_length isL s hlen
      · rw [if_neg hlen] at h
        cases hP : (s.takeWhile isL).length with
        | zero => rw [hP] at h; exact Option.noConfusion h
        | succ p =>
          rw [hP] at h
          rcases Option.map_eq_some'.mp h with ⟨g, hg, he⟩
          rcases searchK_opcode hg with ⟨j, hj, ho⟩
          have hodata : o.data = g.1 := by
            have := (Prod.mk.injEq _ _ _ _ ▸ he).1
            rw [← this]
          rw [hodata, ho]
          have hjP : j ≤ (s.takeWhile isL).length := by omega
          exact all_take_of_le_takeWhile isL s j hjP

/-! ## Dispatch lemmas for process_other_line -/

theorem pol_section {d : Disasm} {line name : String}
    (hsec : reSectionCapture line = some name) :
    d.process_other_line line = .ok (d.add_section (Section.new name)) := by
  unfold Disasm.process_other_line
  rw [hsec]

theorem pol_symbol {d : Disasm} {line nm : String}
    (hsec : reSectionCapture line = none) (hsym : reSymbolCapture line = some nm) :
    d.process_other_line line = d.add_symbol (Symbol.new nm) := by
  unfold Disasm.process_other_line
  rw [hsec, hsym]

theorem pol_instruction {d : Disasm} {line : String} {g : String × String × String}
    (hsec : reSectionCapture line = none) (hsym : reSymbolCapture line = none)
    (hins : reInstructionCapture line = some g) :
    d.process_other_line line =
      d.add_instruction (Instruction.new (rustTrim g.1) (rustTrim g.2.1) (rustTrim g.2.2)) := by
  unfold Disasm.process_other_line
  rw [hsec, hsym, hins]

theorem pol_unrecognized {d : Disasm} {line : String}
    (hsec : reSectionCapture line = none) (hsym : reSymbolCapture line = none)
    (hins : reInstructionCapture line = none) :
    d.process_other_line line =
      .error ("Unrecognized format for the following line: '" ++ line ++ "'") := by
  unfold Disasm.process_other_line
  rw [hsec, hsym, hins]

/-! ## Lemmas about the engine fold -/

theorem processLines_cons_error {d : Disasm} {l : String} {ls : List String} {e : String}
    (h : d.process_other_line l = .error e) : processLines d (l :: ls) = .error e := by
  show (match d.process_other_line l with
        | .ok d' => processLines d' ls
        | .error e => .error e) = _
  rw [h]

theorem processLines_cons_ok {d d' : Disasm} {l : String} {ls : List String}
    (h : d.process_other_line l = .ok d') : processLines d (l :: ls) = processLines d' ls := by
  show (match d.process_other_line l with
        | .ok d' => processLines d' ls
        | .error e => .error e) = _
  rw [h]

theorem from_lines_raw_eq {lines : List String} {header : String} {rest : List String}
    (hfilt : lines.filter (fun l => !(trimList l.data).isEmpty) = header :: rest)
    {fn fmt : String} (hh : process_first_line header = .ok (fn, fmt)) :
    from_lines_raw lines = processLines ⟨fn, fmt, []⟩ rest := by
  unfold from_lines_raw
  rw [hfilt]
  show (match process_first_line header with
        | Except.error e => (Except.error e : Except String Disasm)
        | Except.ok (fn, fmt) => processLines ⟨fn, fmt, []⟩ rest) = _
  rw [hh]

theorem from_lines_of_raw_error {lines : List String} {e : String}
    (h : from_lines_raw lines = .error e) : from_lines lines = .error e := by
  unfold from_lines
  rw [h]
  rfl

theorem from_lines_ok {lines : List String} {d : Disasm} (h : from_lines lines = .ok d) :
    ∃ t, from_lines_raw lines = .ok t ∧ d = t.sort_sections := by
  unfold from_lines at h
  cases hr : from_lines_raw lines with
  | error e =>
    rw [hr] at h
    exact Except.noConfusion h
  | ok t =>
    rw [hr] at h
    refine ⟨t, rfl, ?_⟩
    have h' : Except.ok t.sort_sections = Except.ok d := h
    exact (Except.ok.inj h').symm

theorem processLines_append (d : Disasm) : ∀ (xs ys : List String),
    processLines d (xs ++ ys)
      = match processLines d xs with
        | .ok d' => processLines d' ys
        | .error e => .error e := by
  intro xs
  induction xs generalizing d with
  | nil => intro ys; rfl
  | cons x xs ih =>
    intro ys
    cases hx : d.process_other_line x with
    | ok d' =>
      have h1 : processLines d ((x :: xs) ++ ys) = processLines d' (xs ++ ys) :=
        processLines_cons_ok hx
      have h2 : processLines d (x :: xs) = processLines d' xs :=
        processLines_cons_ok hx
      rw [h1, h2, ih d' ys]
    | error e =>
      have h1 : processLines d ((x :: xs) ++ ys) = .error e :=
        processLines_cons_error hx
      have h2 : processLines d (x :: xs) = .error e :=
        processLines_cons_error hx
      rw [h1, h2]

theorem add_instruction_no_symbol {d : Disasm} {sec : Section} {i : Instruction}
    (hlast : d.sections.getLast? = some sec) (hnosym : sec.symbols = []) :
    d.add_instruction i
      = .error "Attempted to add an instruction without first defining a symbol" := by
  have hsec : sec.add_instruction i
      = .error "Attempted to add an instruction without first defining a symbol" := by
    unfold Section.add_instruction
    rw [hnosym]
    rfl
  unfold Disasm.add_instruction
  rw [hlast]
  show (match sec.add_instruction i with
        | Except.error e => (Except.error e : Except String Disasm)
        | Except.ok sec' =>
            Except.ok ⟨d.file_name, d.file_format, d.sections.dropLast ++ [sec']⟩) = _
  rw [hsec]

theorem filter_nil_of_false {p : String → Bool} :
    ∀ l : List String, (∀ x ∈ l, p x = false) → l.filter p = [] := by
  intro l h
  rw [List.filter_eq_nil_iff]
  intro a ha
  rw [h a ha]
  exact Bool.noConfusion

theorem isEmpty_false_of_ne_nil {l : List Char} (h : l ≠ []) : l.isEmpty = false := by
  cases l with
  | nil => exact absurd rfl h
  | cons a l => rfl

theorem nonblank_of_mem {line : String} {c : Char} (hc : c ∈ line.data)
    (hw : rustIsWs c = false) : (!(trimList line.data).isEmpty) = true := by
  rw [isEmpty_false_of_ne_nil (trimList_ne_nil hc hw)]
  rfl

theorem filter_shape (p : String → Bool) (header x : String) (pre post : List String)
    (hh : p header = true) (hpre : ∀ l ∈ pre, p l = false) (hx : p x = true) :
    (header :: (pre ++ x :: post)).filter p = header :: x :: post.filter p := by
  rw [List.filter_cons_of_pos hh, List.filter_append, filter_nil_of_false pre hpre,
      List.filter_cons_of_pos hx]
  rfl

theorem filter_shape2 (p : String → Bool) (header x y : String)
    (pre1 pre2 post : List String)
    (hh : p header = true) (hpre1 : ∀ l ∈ pre1, p l = false) (hx : p x = true)
    (hpre2 : ∀ l ∈ pre2, p l = false) (hy : p y = true) :
    (header :: (pre1 ++ x :: (pre2 ++ y :: post))).filter p
      = header :: x :: y :: post.filter p := by
  rw [List.filter_cons_of_pos hh, List.filter_append, filter_nil_of_false pre1 hpre1,
      List.filter_cons_of_pos hx, List.filter_append, filter_nil_of_false pre2 hpre2,
      List.filter_cons_of_pos hy]
  rfl

/-! ## Claim theorems -/

/-- C1: a body line of the exact form `Disassembly of section <NAME>:`
is classified as a section marker, appending a new empty Section and
never failing, precisely when <NAME> has a first character that is not a
newline followed by a non-empty run of alphanumerics/periods (so the
name has length at least two and its FIRST character is unconstrained);
any other name of the template shape is rejected as an unrecognized
line, never as an instruction.  This corrects the claim in two points:
the line is not trimmed before matching, a one-character alphanumeric
name is rejected, and a non-alphanumeric first character is accepted. -/
theorem C1_section_marker (d : Disasm) (name : String) :
    (goodSecNameB name = true →
       d.process_other_line ("Disassembly of section " ++ name ++ ":")
         = .ok (d.add_section (Section.new name)))
  ∧ (goodSecNameB name = false →
       d.process_other_line ("Disassembly of section " ++ name ++ ":")
         = .error ("Unrecognized format for the following line: '"
             ++ ("Disassembly of section " ++ name ++ ":") ++ "'")) := by
  have hdata0 : ("Disassembly of section " ++ name ++ ":").data
      = sectionMarkerPre ++ (name.data ++ [':']) := by
    rw [str_data_append, str_data_append]
    simp [sectionMarkerPre]
  constructor
  · intro hg
    cases hnd : name.data with
    | nil =>
      unfold goodSecNameB at hg
      rw [hnd] at hg
      exact Bool.noConfusion hg
    | cons c ms =>
      unfold goodSecNameB at hg
      rw [hnd] at hg
      simp only [Bool.and_eq_true, bne_iff_ne, List.isEmpty_iff, Bool.not_eq_true'] at hg
      have hms : ms ≠ [] := by
        intro he
        rw [he] at hg
        simp at hg
      have hall : ms.all isAlnumDot = true := hg.1.2
      have hc : c ≠ '\n' := hg.2
      have hdata : ("Disassembly of section " ++ name ++ ":").data
          = sectionMarkerPre ++ ((c :: ms) ++ [':']) := by
        rw [hdata0, hnd]
      rw [pol_section (reSectionCapture_pos hdata hms hall hc)]
      have : (⟨c :: ms⟩ : String) = name := string_ext (by rw [hnd])
      rw [this]
  · intro hb
    have hsec : reSectionCapture ("Disassembly of section " ++ name ++ ":") = none := by
      refine reSectionCapture_neg hdata0 ?_
      rw [string_eta]
      exact hb
    have hdataD : ("Disassembly of section " ++ name ++ ":").data
        = 'D' :: ("isassembly of section ".data ++ (name.data ++ [':'])) := by
      rw [hdata0]
      rfl
    have hsym := reSymbolCapture_head_ne hdataD (by decide)
    have hins := reInstructionCapture_head_not_ws hdataD (by decide)
    exact pol_unrecognized hsec hsym hins

/-- C1 witness: the two-character name .text (first character a period)
is accepted; the one-character alphanumeric name a is rejected. -/
theorem C1_witness :
    Disasm.process_other_line ⟨"f", "x", []⟩ ("Disassembly of section " ++ ".text" ++ ":")
      = .ok (Disasm.add_section ⟨"f", "x", []⟩ (Section.new ".text"))
  ∧ Disasm.process_other_line ⟨"f", "x", []⟩ ("Disassembly of section " ++ "a" ++ ":")
      = .error ("Unrecognized format for the following line: '"
          ++ ("Disassembly of section " ++ "a" ++ ":") ++ "'") :=
  ⟨(C1_section_marker ⟨"f", "x", []⟩ ".text").1 (by decide),
   (C1_section_marker ⟨"f", "x", []⟩ "a").2 (by decide)⟩

/-- C1 counterexample: the line `Disassembly of section a:` trimmed
matches the template of the claim with the non-empty alphanumeric name
a, so the claim demands a new Section named a, but the code rejects the
line (the regex requires at least two characters in the name). -/
theorem C1_counterexample :
    from_lines ["f: file format x", "Disassembly of section a:"]
      = .error "Unrecognized format for the following line: 'Disassembly of section a:'" := by
  rfl

/-- C2: a body line is a symbol marker exactly when the UNTRIMMED line
begins with the angle bracket and ends with the two characters
greater-than colon; the name is the full bracketed text.  A line whose
first character is not whitespace and matches no template is rejected
as unrecognized, as is a line starting with the angle bracket that does
not end with the colon.  This corrects the claim: the line is not
trimmed first (a line with two or more leading whitespace characters
before the brackets is classified as an instruction instead). -/
theorem C2_symbol_marker (d : Disasm) :
    (∀ mid : String, mid.data ≠ [] → mid.data.all (fun x => x != '\n') = true →
       d.process_other_line ("<" ++ mid ++ ">:")
         = d.add_symbol (Symbol.new ("<" ++ mid ++ ">")))
  ∧ (∀ line : String, line.data.head? = some '<' → line.data.getLast? ≠ some ':' →
       d.process_other_line line
         = .error ("Unrecognized format for the following line: '" ++ line ++ "'"))
  ∧ (∀ line : String, ∀ c : Char, line.data.head? = some c → isWsAscii c = false →
       c ≠ '<' → c ≠ 'D' →
       d.process_other_line line
         = .error ("Unrecognized format for the following line: '" ++ line ++ "'")) := by
  refine ⟨?_, ?_, ?_⟩
  · intro mid hmid hnl
    have hdata : ("<" ++ mid ++ ">:").data = '<' :: ((mid.data ++ ['>']) ++ [':']) := by
      rw [str_data_append, str_data_append]
      simp
    have hsec := reSectionCapture_head_ne hdata (by decide)
    have hsym := reSymbolCapture_pos hdata hmid hnl
    rw [pol_symbol hsec hsym]
    have : (⟨'<' :: (mid.data ++ ['>'])⟩ : String) = "<" ++ mid ++ ">" := by
      refine string_ext ?_
      rw [str_data_append, str_data_append]
      simp
    rw [this]
  · intro line hhead hlast
    cases hdata : line.data with
    | nil => rw [hdata] at hhead; exact Option.noConfusion hhead
    | cons c s =>
      rw [hdata] at hhead
      have hc : c = '<' := by
        simp only [List.head?_cons] at hhead
        exact Option.some.inj hhead
      subst hc
      have hsec := reSectionCapture_head_ne hdata (by decide)
      have hsym := reSymbolCapture_no_colon (by rw [hdata]; rfl) hlast
      have hins := reInstructionCapture_head_not_ws hdata (by decide)
      exact pol_unrecognized hsec hsym hins
  · intro line c hhead hws hlt hd
    cases hdata : line.data with
    | nil => rw [hdata] at hhead; exact Option.noConfusion hhead
    | cons c' s =>
      rw [hdata] at hhead
      have hc : c' = c := by
        simp only [List.head?_cons] at hhead
        exact Option.some.inj hhead
      subst hc
      have hsec := reSectionCapture_head_ne hdata hd
      have hsym := reSymbolCapture_head_ne hdata hlt
      have hins := reInstructionCapture_head_not_ws hdata hws
      exact pol_unrecognized hsec hsym hins

/-- C2 witness: a plain bracketed line is a symbol marker; a bracketed
line without the final colon and a line with leading gibberish are
unrecognized. -/
theorem C2_witness :
    Disasm.process_other_line ⟨"f", "x", []⟩ ("<" ++ "sym1" ++ ">:")
      = Disasm.add_symbol ⟨"f", "x", []⟩ (Symbol.new ("<" ++ "sym1" ++ ">"))
  ∧ Disasm.process_other_line ⟨"f", "x", []⟩ "<a>"
      = .error ("Unrecognized format for the following line: '" ++ "<a>" ++ "'")
  ∧ Disasm.process_other_line ⟨"f", "x", []⟩ "gibberish<sym1>:"
      = .error ("Unrecognized format for the following line: '" ++ "gibberish<sym1>:" ++ "'") :=
  ⟨(C2_symbol_marker ⟨"f", "x", []⟩).1 "sym1" (by decide) (by decide),
   (C2_symbol_marker ⟨"f", "x", []⟩).2.1 "<a>" (by decide) (by decide),
   (C2_symbol_marker ⟨"f", "x", []⟩).2.2 "gibberish<sym1>:" 'g' (by decide) (by decide)
     (by decide) (by decide)⟩

/-- C2 counterexample: the line with two leading spaces before the
bracketed name trims to a line that begins with the angle bracket and
ends with the colon, so the claim demands a symbol marker named <sym9>,
but the code classifies it as an instruction with empty opcode and
operands `<sym9>:` (the tree below has one symbol with one instruction,
not two symbols). -/
theorem C2_counterexample :
    from_lines ["f: file format x", "Disassembly of section ss:", "<s>:", "  <sym9>:"]
      = .ok ⟨"f", "x", [⟨"ss", [⟨"<s>", [⟨"", "<sym9>:", ""⟩]⟩]⟩]⟩ := by
  rfl

/-- C3 (amended): every line accepted by the instruction pattern begins
with a whitespace character, and the stored opcode (the trimmed greedy
capture over lowercase/digit/whitespace) consists solely of lowercase
letters, digits and interior whitespace; the stored fields are the
pattern captures, not the first-hash/last-space split of the claim. -/
theorem C3_instruction_fields (line o a cm : String)
    (h : reInstructionCapture line = some (o, a, cm)) :
    (∃ c s, line.data = c :: s ∧ isWsAscii c = true)
    ∧ (rustTrim o).data.all isL = true := by
  refine ⟨reInstructionCapture_ws_head h, ?_⟩
  exact all_trimList_of_all (reInstructionCapture_opcode_class h)

/-- C3 witness at a line from the repository tests. -/
theorem C3_witness :
    ((∃ c s, ("\topc2    %opr1,%opr2" : String).data = c :: s ∧ isWsAscii c = true)
    ∧ (rustTrim "opc2   ").data.all isL = true) :=
  C3_instruction_fields "\topc2    %opr1,%opr2" "opc2   " " %opr1,%opr2" "" (by decide)

/-- C3 counterexample: for the line ` mov bx` the greedy opcode class
swallows the all-lowercase operand token, so the stored instruction is
(mov bx, empty, empty), while the split rule of the claim produces
(mov, bx, empty). -/
theorem C3_counterexample :
    from_lines ["f: file format x", "Disassembly of section ss:", "<s>:", " mov bx"]
      = .ok ⟨"f", "x", [⟨"ss", [⟨"<s>", [⟨"mov bx", "", ""⟩]⟩]⟩]⟩
  ∧ Instruction.fromStr " mov bx" = ⟨"mov", "bx", ""⟩
  ∧ (⟨"mov bx", "", ""⟩ : Instruction) ≠ ⟨"mov", "bx", ""⟩ :=
  ⟨by rfl, by rfl, by decide⟩

/-- C4 (amended): the first line splits at the first colon; the part
before it is file_name verbatim; the tail is trimmed and the literal
`file format ` is stripped, and file_format is the remainder VERBATIM
(no second trim: leading whitespace of the remainder survives when more
than one space follows `format`); the parse fails exactly when the
colon is absent or the prefix does not match. -/
theorem C4_header_parse :
    (∀ fn rest : String, ':' ∉ fn.data →
       process_first_line (fn ++ ":" ++ rest)
         = match stripPreList "file format ".data (trimList rest.data) with
           | some fmt => .ok (fn, (⟨fmt⟩ : String))
           | none => .error "Incorrect format for the first line")
  ∧ (∀ line : String, ':' ∉ line.data →
       process_first_line line = .error "Incorrect format for the first line") := by
  constructor
  · intro fn rest h
    unfold process_first_line
    have hdata : (fn ++ ":" ++ rest).data = fn.data ++ ':' :: rest.data := by
      rw [str_data_append, str_data_append]
      simp
    rw [hdata, splitOnceList_append fn.data rest.data h]
    show (match stripPreList "file format ".data (trimList rest.data) with
          | none => Except.error "Incorrect format for the first line"
          | some fmt => Except.ok ((⟨fn.data⟩ : String), (⟨fmt⟩ : String))) = _
    cases hsp : stripPreList "file format ".data (trimList rest.data) with
    | none => rfl
    | some fmt =>
      show Except.ok ((⟨fn.data⟩ : String), (⟨fmt⟩ : String)) = _
      rw [string_eta]
  · intro line h
    unfold process_first_line
    rw [splitOnceList_not_mem h]

/-- C4 witness: a header with two spaces after `format` keeps the
leading space in file_format; a line without a colon fails. -/
theorem C4_witness :
    process_first_line ("f" ++ ":" ++ " file format  x") = .ok ("f", " x")
  ∧ process_first_line "no separator here" = .error "Incorrect format for the first line" := by
  constructor
  · have h := C4_header_parse.1 "f" " file format  x" (by decide)
    rw [h]
    rfl
  · exact C4_header_parse.2 "no separator here" (by decide)

/-- C4 counterexample: on the header `f: file format  x` the code keeps
file_format as ` x` with its leading space, while the claim demands the
trimmed remainder `x`. -/
theorem C4_counterexample :
    from_lines ["f: file format  x"] = .ok ⟨"f", " x", []⟩
  ∧ rustTrim " x" = "x" ∧ (" x" : String) ≠ "x" :=
  ⟨by rfl, by rfl, by decide⟩

/-- C5: with a valid header, if the first non-blank body line is a
symbol marker, the whole parse fails with the missing-section error and
returns no partial tree. -/
theorem C5_symbol_before_section (header fn fmt mid : String) (pre post : List String)
    (hh : process_first_line header = .ok (fn, fmt))
    (hhb : (!(trimList header.data).isEmpty) = true)
    (hpre : ∀ l ∈ pre, (!(trimList l.data).isEmpty) = false)
    (hmid : mid.data ≠ []) (hnl : mid.data.all (fun x => x != '\n') = true) :
    from_lines (header :: (pre ++ ("<" ++ mid ++ ">:") :: post))
      = .error "Attempted to add a symbol without first defining a section" := by
  have hdata : ("<" ++ mid ++ ">:").data = '<' :: ((mid.data ++ ['>']) ++ [':']) := by
    rw [str_data_append, str_data_append]
    simp
  have hx : (!(trimList ("<" ++ mid ++ ">:").data).isEmpty) = true := by
    have hmem : '<' ∈ ("<" ++ mid ++ ">:").data := by
      rw [hdata]
      exact List.mem_cons_self _ _
    exact nonblank_of_mem hmem (by decide)
  have hfilt := filter_shape (fun l => !(trimList l.data).isEmpty)
      header ("<" ++ mid ++ ">:") pre post hhb hpre hx
  have hraw := from_lines_raw_eq hfilt hh
  have hsec := reSectionCapture_head_ne hdata (by decide)
  have hsym := reSymbolCapture_pos hdata hmid hnl
  have hpol : Disasm.process_other_line ⟨fn, fmt, []⟩ ("<" ++ mid ++ ">:")
      = .error "Attempted to add a symbol without first defining a section" := by
    rw [pol_symbol hsec hsym]
    rfl
  refine from_lines_of_raw_error ?_
  rw [hraw]
  exact processLines_cons_error hpol

/-- C5 witness: a blank line, then a symbol marker before any section. -/
theorem C5_witness :
    from_lines ("f: file format x" :: ([""] ++ ("<" ++ "s1" ++ ">:") :: ["junk"]))
      = .error "Attempted to add a symbol without first defining a section" :=
  C5_symbol_before_section "f: file format x" "f" "x" "s1" [""] ["junk"]
    (by rfl) (by decide) (by decide) (by decide) (by decide)

/-- C6: with a valid header, whenever the parse has successfully
processed any prefix of body lines (so arbitrarily many section
markers, and earlier sections possibly populated with symbols and
instructions) and the CURRENT section — the last one created — still
has no symbols, the next non-blank line being an instruction line makes
the whole parse fail with exactly the missing-symbol error (fail-fast,
no partial tree). -/
theorem C6_instruction_before_symbol (lines : List String)
    (header fn fmt : String) (body1 : List String) (ins : String) (post : List String)
    (d : Disasm) (sec : Section) (g : String × String × String)
    (hfilt : lines.filter (fun l => !(trimList l.data).isEmpty)
        = header :: (body1 ++ ins :: post))
    (hh : process_first_line header = .ok (fn, fmt))
    (hbody : processLines ⟨fn, fmt, []⟩ body1 = .ok d)
    (hlast : d.sections.getLast? = some sec)
    (hnosym : sec.symbols = [])
    (hins : reInstructionCapture ins = some g) :
    from_lines lines
      = .error "Attempted to add an instruction without first defining a symbol" := by
  have hraw := from_lines_raw_eq hfilt hh
  have hins' : reInstructionCapture ins = some (g.1, g.2.1, g.2.2) := by
    rw [hins]
  rcases reInstructionCapture_ws_head hins' with ⟨c0, s0, hdata1, hws0⟩
  have hsec1 := reSectionCapture_head_ne hdata1 (ws_ne_d hws0)
  have hsym1 := reSymbolCapture_head_ne hdata1 (ws_ne_lt hws0)
  have hstep : d.process_other_line ins
      = .error "Attempted to add an instruction without first defining a symbol" := by
    rw [pol_instruction hsec1 hsym1 hins]
    exact add_instruction_no_symbol hlast hnosym
  refine from_lines_of_raw_error ?_
  rw [hraw, processLines_append ⟨fn, fmt, []⟩ body1 (ins :: post), hbody]
  exact processLines_cons_error hstep

/-- C6 witness: two section markers, the first populated with a symbol
and an instruction, the second (current) one empty, then an instruction
line. -/
theorem C6_witness :
    from_lines ["f: file format x", "Disassembly of section s1:", "<s>:", " op",
        "Disassembly of section s2:", " nop"]
      = .error "Attempted to add an instruction without first defining a symbol" :=
  C6_instruction_before_symbol
    ["f: file format x", "Disassembly of section s1:", "<s>:", " op",
     "Disassembly of section s2:", " nop"]
    "f: file format x" "f" "x"
    ["Disassembly of section s1:", "<s>:", " op", "Disassembly of section s2:"]
    " nop" []
    ⟨"f", "x", [⟨"s1", [⟨"<s>", [⟨"op", "", ""⟩]⟩]⟩, ⟨"s2", []⟩]⟩ ⟨"s2", []⟩
    ("nop", "", "")
    (by rfl) (by rfl) (by rfl) (by rfl) (by rfl) (by rfl)

/-- C7: every successfully parsed tree has its sections pairwise sorted
by name and each section's symbols pairwise sorted by name under the
lexicographic codepoint order, and the sort is stable: for every name,
the subsequence of equally-named sections (and symbols) keeps its
pre-sort source order. -/
theorem C7_sorted_output (lines : List String) (d : Disasm)
    (h : from_lines lines = .ok d) :
    d.sections.Pairwise (fun a b => secLe a b = true)
  ∧ (∀ s ∈ d.sections, s.symbols.Pairwise (fun a b => symLe a b = true))
  ∧ ∃ t, from_lines_raw lines = .ok t ∧ d = t.sort_sections
      ∧ (∀ n : String, d.sections.filter (fun s => s.name == n)
            = (t.sections.filter (fun s => s.name == n)).map Section.sort_symbols)
      ∧ (∀ s ∈ t.sections, ∀ n : String,
            (Section.sort_symbols s).symbols.filter (fun y => y.name == n)
              = s.symbols.filter (fun y => y.name == n)) := by
  rcases from_lines_ok h with ⟨t, hraw, hd⟩
  subst hd
  have htotSec : ∀ x y : Section, secLe x y = true ∨ secLe y x = true :=
    fun x y => strLe_total x.name y.name
  have htransSec : ∀ x y z : Section,
      secLe x y = true → secLe y z = true → secLe x z = true :=
    fun _ _ _ hxy hyz => strLe_trans hxy hyz
  have htotSym : ∀ x y : Symbol, symLe x y = true ∨ symLe y x = true :=
    fun x y => strLe_total x.name y.name
  have htransSym : ∀ x y z : Symbol,
      symLe x y = true → symLe y z = true → symLe x z = true :=
    fun _ _ _ hxy hyz => strLe_trans hxy hyz
  refine ⟨?_, ?_, t, hraw, rfl, ?_, ?_⟩
  · exact pairwise_insSort secLe htotSec htransSec _
  · intro s hs
    have hs' := (mem_insSort secLe s _).mp hs
    rcases List.mem_map.mp hs' with ⟨s0, _, hs0⟩
    subst hs0
    exact pairwise_insSort symLe htotSym htransSym _
  · intro n
    have hp : ∀ x y : Section,
        (x.name == n) = true → (y.name == n) = true → secLe x y = true := by
      intro x y hx hy
      have hx' : x.name = n := eq_of_beq hx
      have hy' : y.name = n := eq_of_beq hy
      unfold secLe
      rw [hx', hy']
      exact strLe_refl n
    show (insSort secLe (t.sections.map Section.sort_symbols)).filter _ = _
    rw [filter_insSort secLe _ hp, List.filter_map]
    exact congrArg _ (List.filter_congr (fun a _ => rfl))
  · intro s _ n
    have hp : ∀ x y : Symbol,
        (x.name == n) = true → (y.name == n) = true → symLe x y = true := by
      intro x y hx hy
      have hx' : x.name = n := eq_of_beq hx
      have hy' : y.name = n := eq_of_beq hy
      unfold symLe
      rw [hx', hy']
      exact strLe_refl n
    exact filter_insSort symLe _ hp s.symbols

/-- C7 witness: the names abb, adc, abc, acc supplied out of order come
out as abb, abc, acc, adc, with the symbols of abb sorted as well. -/
theorem C7_witness :
    (Disasm.sections ⟨"f", "x",
        [⟨"abb", [⟨"<as>", []⟩, ⟨"<zs>", []⟩]⟩, ⟨"abc", []⟩, ⟨"acc", []⟩,
         ⟨"adc", []⟩]⟩).Pairwise (fun a b => secLe a b = true)
  ∧ (∀ s ∈ (Disasm.sections ⟨"f", "x",
        [⟨"abb", [⟨"<as>", []⟩, ⟨"<zs>", []⟩]⟩, ⟨"abc", []⟩, ⟨"acc", []⟩,
         ⟨"adc", []⟩]⟩), s.symbols.Pairwise (fun a b => symLe a b = true))
  ∧ ∃ t, from_lines_raw ["f: file format x", "Disassembly of section abb:", "<zs>:",
        "<as>:", "Disassembly of section adc:", "Disassembly of section abc:",
        "Disassembly of section acc:"] = .ok t
      ∧ (⟨"f", "x", [⟨"abb", [⟨"<as>", []⟩, ⟨"<zs>", []⟩]⟩, ⟨"abc", []⟩, ⟨"acc", []⟩,
          ⟨"adc", []⟩]⟩ : Disasm) = t.sort_sections
      ∧ (∀ n : String, (Disasm.sections ⟨"f", "x",
            [⟨"abb", [⟨"<as>", []⟩, ⟨"<zs>", []⟩]⟩, ⟨"abc", []⟩, ⟨"acc", []⟩,
             ⟨"adc", []⟩]⟩).filter (fun s => s.name == n)
            = (t.sections.filter (fun s => s.name == n)).map Section.sort_symbols)
      ∧ (∀ s ∈ t.sections, ∀ n : String,
            (Section.sort_symbols s).symbols.filter (fun y => y.name == n)
              = s.symbols.filter (fun y => y.name == n)) :=
  C7_sorted_output ["f: file format x", "Disassembly of section abb:", "<zs>:",
    "<as>:", "Disassembly of section adc:", "Disassembly of section abc:",
    "Disassembly of section acc:"]
    ⟨"f", "x", [⟨"abb", [⟨"<as>", []⟩, ⟨"<zs>", []⟩]⟩, ⟨"abc", []⟩, ⟨"acc", []⟩,
     ⟨"adc", []⟩]⟩ (by rfl)

/-- C8: the sort step is idempotent: applying sort_sections twice gives
the same tree as applying it once. -/
theorem C8_sort_idempotent (d : Disasm) :
    d.sort_sections.sort_sections = d.sort_sections := by
  have htotSym : ∀ x y : Symbol, symLe x y = true ∨ symLe y x = true :=
    fun x y => strLe_total x.name y.name
  have htransSym : ∀ x y z : Symbol,
      symLe x y = true → symLe y z = true → symLe x z = true :=
    fun _ _ _ hxy hyz => strLe_trans hxy hyz
  have htotSec : ∀ x y : Section, secLe x y = true ∨ secLe y x = true :=
    fun x y => strLe_total x.name y.name
  have htransSec : ∀ x y z : Section,
      secLe x y = true → secLe y z = true → secLe x z = true :=
    fun _ _ _ hxy hyz => strLe_trans hxy hyz
  have hgg : ∀ s : Section, s.sort_symbols.sort_symbols = s.sort_symbols := by
    intro s
    show (⟨s.name, insSort symLe (insSort symLe s.symbols)⟩ : Section) = _
    rw [insSort_eq_of_pairwise symLe _ (pairwise_insSort symLe htotSym htransSym _)]
    rfl
  show (⟨d.file_name, d.file_format,
        insSort secLe
          ((insSort secLe (d.sections.map Section.sort_symbols)).map
            Section.sort_symbols)⟩ : Disasm) = _
  have hmapcomp : d.sections.map (Section.sort_symbols ∘ Section.sort_symbols)
      = d.sections.map Section.sort_symbols :=
    List.map_congr_left (fun a _ => hgg a)
  rw [map_insSort secLe secLe Section.sort_symbols (fun x y => rfl), List.map_map,
      hmapcomp,
      insSort_eq_of_pairwise secLe _ (pairwise_insSort secLe htotSec htransSec _)]
  rfl

/-- C8 witness at a concrete unsorted tree. -/
theorem C8_witness :
    Disasm.sort_sections (Disasm.sort_sections
        ⟨"f", "x", [⟨"b", [⟨"s2", []⟩, ⟨"s1", []⟩]⟩, ⟨"a", []⟩]⟩)
      = Disasm.sort_sections ⟨"f", "x", [⟨"b", [⟨"s2", []⟩, ⟨"s1", []⟩]⟩, ⟨"a", []⟩]⟩ :=
  C8_sort_idempotent ⟨"f", "x", [⟨"b", [⟨"s2", []⟩, ⟨"s1", []⟩]⟩, ⟨"a", []⟩]⟩

/-- C9 (amended): the two instruction parsers are not equivalent.  For
every line consisting of one whitespace character followed by text made
only of lowercase letters, digits and whitespace, the regex classifier
accepts with the whole text as the opcode group and an empty operands
group, whereas the splitting parser of instruction.rs splits the same
text at its last space into opcode and operands (the counterexample
theorem exhibits the disagreement at ` jmp 40`). -/
theorem C9_regex_greedy_opcode (c : Char) (s : List Char)
    (hws : isWsAscii c = true) (hall : s.all isL = true) :
    reInstructionCapture ⟨c :: s⟩ = some (⟨s⟩, "", "") := by
  unfold reInstructionCapture
  show (if isWsAscii c = true then
          if (s.takeWhile isL).length = s.length then some ((⟨s⟩ : String), "", "")
          else match (s.takeWhile isL).length with
            | 0 => none
            | p + 1 =>
              (searchK s (p + 1) p).map
                (fun g => ((⟨g.1⟩ : String), (⟨g.2.1⟩ : String), (⟨g.2.2⟩ : String)))
        else none) = _
  have hlen : (s.takeWhile isL).length = s.length := by
    rw [takeWhile_eq_self_of_all isL s hall]
  rw [if_pos hws, if_pos hlen]

/-- C9 witness: a whitespace-led all-lowercase-digit line. -/
theorem C9_witness :
    reInstructionCapture ⟨' ' :: "ab 12".data⟩ = some (⟨"ab 12".data⟩, "", "") :=
  C9_regex_greedy_opcode ' ' "ab 12".data (by decide) (by decide)

/-- C9 counterexample: on ` jmp 40` the engine stores the triple
(jmp 40, empty, empty) while the splitting parser produces
(jmp, 40, empty); the two implementations disagree. -/
theorem C9_counterexample :
    reInstructionCapture " jmp 40" = some ("jmp 40", "", "")
  ∧ Instruction.fromStr " jmp 40" = ⟨"jmp", "40", ""⟩
  ∧ Instruction.new (rustTrim "jmp 40") (rustTrim "") (rustTrim "")
      ≠ Instruction.fromStr " jmp 40" :=
  ⟨by rfl, by rfl, by decide⟩

/-- C10: the classifier accepts body lines with an empty opcode: two
spaces followed by a bracketed name and colon become an instruction
with empty opcode and operands `<foo>:` (not a symbol marker), and
whitespace followed by a hash comment becomes an instruction with empty
opcode; such an instruction renders as a bare newline, and the Symbol
and Section renderers emit a whitespace-only line for it. -/
theorem C10_empty_opcode :
    from_lines ["f: file format x", "Disassembly of section ss:", "<s>:", "  <foo>:",
        "   # note"]
      = .ok ⟨"f", "x", [⟨"ss", [⟨"<s>", [⟨"", "<foo>:", ""⟩, ⟨"", "", "note"⟩]⟩]⟩]⟩
  ∧ Instruction.render ⟨"", "<foo>:", ""⟩ = "\n"
  ∧ Symbol.render ⟨"<s>", [⟨"", "<foo>:", ""⟩]⟩ = "<s>:\n    \n"
  ∧ Section.render ⟨"ss", [⟨"<s>", [⟨"", "<foo>:", ""⟩]⟩]⟩ = "ss:\n    <s>:\n        \n" :=
  ⟨by rfl, by rfl, by rfl, by rfl⟩

end DisasmUtil
